import Mathlib

/-!
Verification of the `@klasa/ws` sharded gateway client against its design
specification. The definitions below are a shallow embedding of the
TypeScript sources:

* `src/lib/WebSocketManager.ts` — the `WebSocketManager` class: `spawn`,
  `queueShard`, `getShard`, `handleSessionLimit`, the `ping` getter, the
  token handling, and the `AsyncQueue`-based identify admission queue.
* `src/lib/Worker.ts` — the worker-side control-channel message handler.
* `src/types/InternalWebSocket.ts` — the enumerations (`GatewayStatus`,
  `InternalActions`) and message types used by both.

JavaScript numbers are embedded as exact rationals extended with the IEEE
special values needed by the code under verification (`nan`, signed
infinities); machine integer widths never matter at the sizes involved.
The asynchronous manager is embedded as a small-step labelled transition
system over an explicit state, with one task per `queueShard` invocation
and the `AsyncQueue` represented by its FIFO list of pending waiters.
-/

namespace KlasaWS

/-! ## JavaScript number embedding

`WebSocketManager.ping` computes `sum / this.shards.size` with no guard for
an empty shard cache, so the embedding of JS numbers must include `NaN` and
the signed infinities produced by division by zero. Finite values are exact
rationals (the code performs no operation whose rounding could matter). -/

/-- A JavaScript number: an exact finite rational, `NaN`, or a signed
infinity. Negative zero is not distinguished from zero. -/
inductive JsNum
  | num (q : ℚ)
  | nan
  | posInf
  | negInf
  deriving DecidableEq

/-- JavaScript `+` on numbers: `NaN` is absorbing, opposite infinities give
`NaN`, an infinity otherwise absorbs, finite values add exactly. -/
def JsNum.add : JsNum → JsNum → JsNum
  | num a, num b => num (a + b)
  | num _, posInf => posInf
  | num _, negInf => negInf
  | posInf, num _ => posInf
  | negInf, num _ => negInf
  | posInf, posInf => posInf
  | negInf, negInf => negInf
  | posInf, negInf => nan
  | negInf, posInf => nan
  | nan, _ => nan
  | _, nan => nan

/-- JavaScript `/` on numbers: `0 / 0` is `NaN`, a nonzero finite value
divided by zero gives a signed infinity, finite division is exact. -/
def JsNum.div : JsNum → JsNum → JsNum
  | num a, num b =>
      if b = 0 then
        if a = 0 then nan else if 0 < a then posInf else negInf
      else num (a / b)
  | num _, posInf => num 0
  | num _, negInf => num 0
  | posInf, num b => if 0 ≤ b then posInf else negInf
  | negInf, num b => if 0 ≤ b then negInf else posInf
  | posInf, posInf => nan
  | posInf, negInf => nan
  | negInf, posInf => nan
  | negInf, negInf => nan
  | nan, _ => nan
  | _, nan => nan

/-- The `ping` getter of `WebSocketManager`:
`const sum = this.shards.reduce((a, b) => a + b.ping, 0);
 return sum / this.shards.size;`
The shard cache is embedded as the list of the shards' current `ping`
values (the reduce only reads `b.ping`). -/
def managerPing (pings : List JsNum) : JsNum :=
  (pings.foldl JsNum.add (JsNum.num 0)).div (JsNum.num pings.length)

/-! ## Gateway data and options

From `@klasa/dapi-types` (`APIGatewayBotData`) as consumed by the manager,
and `WSOptions` from `WebSocketManager.ts` restricted to the fields the
verified code paths read (`shards`, `totalShards`); `intents`,
`additionalOptions` and `gatewayVersion` are never read by `spawn`'s shard
list computation, the token check, `queueShard` or `handleSessionLimit`. -/

/-- `session_start_limit` of `GET /gateway/bot`. -/
structure SessionStartLimit where
  total : Nat
  remaining : Nat
  reset_after : Nat
  deriving DecidableEq

/-- `APIGatewayBotData`: the gateway info fetched from REST. -/
structure APIGatewayBotData where
  url : String
  shards : Nat
  session_start_limit : SessionStartLimit
  deriving DecidableEq

/-- An element of a user-supplied `shards` array. The TypeScript type says
`number[]` but the code defends against other runtime values with
`typeof item === 'number' && !Number.isNaN(item)`, so the embedding keeps
the three relevant classes: an integer number, `NaN`, and a non-number. -/
inductive ShardsItem
  | num (n : Int)
  | nan
  | nonNumber
  deriving DecidableEq

/-- The `shards` option: `'auto' | number | number[]`. -/
inductive ShardsOption
  | auto
  | count (n : Int)
  | idList (items : List ShardsItem)
  deriving DecidableEq

/-- `WSOptions`, restricted to the fields read by the verified paths.
`totalShards : number | null` is embedded as `Option Int`. -/
structure WSOptions where
  shards : ShardsOption
  totalShards : Option Int
  deriving DecidableEq

/-- JavaScript truthiness of `this.options.totalShards` as tested by
`if (!this.options.totalShards)`: `null` and `0` are falsy. (`NaN` is also
falsy but `totalShards` is embedded as an integer option.) -/
def totalShardsTruthy : Option Int → Bool
  | none => false
  | some n => n ≠ 0

/-- Keep an array item iff `typeof item === 'number' && !Number.isNaN(item)`. -/
def numericItem : ShardsItem → Option Int
  | ShardsItem.num n => some n
  | ShardsItem.nan => none
  | ShardsItem.nonNumber => none

/-- The shard-list computation of `WebSocketManager.spawn` (the
`Array.isArray / 'auto' / number` branch), given the freshly fetched
gateway info's `shards` field. Returns the ids queued and the options as
mutated by `spawn` (`this.options.totalShards` is assigned in the `'auto'`
and number branches). -/
def computeShardQueue (options : WSOptions) (gatewayShards : Nat) :
    Except String (List Int × WSOptions) :=
  match options.shards with
  | ShardsOption.idList items =>
      if totalShardsTruthy options.totalShards then
        Except.ok (items.filterMap numericItem, options)
      else
        Except.error "totalShards must be supplied if you are defining shards with an array."
  | ShardsOption.auto =>
      Except.ok ((List.range gatewayShards).map Int.ofNat,
        { options with totalShards := some (Int.ofNat gatewayShards) })
  | ShardsOption.count n =>
      Except.ok ((List.range n.toNat).map Int.ofNat,
        { options with totalShards := some n })

/-- The manager state read and written by the constructor, the `token`
setter and the front of `spawn`. -/
structure ManagerInit where
  token : Option String
  options : WSOptions
  deriving DecidableEq

/-- The constructor of `WebSocketManager`:
`this.#token = process.env.DISCORD_TOKEN || null;` — an unset variable and
the empty string (falsy) both leave the token `null`. -/
def webSocketManagerInit (envDiscordToken : Option String)
    (options : WSOptions) : ManagerInit :=
  { token :=
      match envDiscordToken with
      | some s => if s = "" then none else some s
      | none => none,
    options := options }

/-- The `token` setter: `this.#token = token;`. -/
def setToken (m : ManagerInit) (tok : String) : ManagerInit :=
  { m with token := some tok }

/-- The externally visible effects of `spawn` before the per-shard
`queueShard` calls run. -/
inductive SpawnAction
  | fetchGatewayInfo
  | queueShard (id : Int)
  deriving DecidableEq

/-- The front of `WebSocketManager.spawn`: the token guard
(`if (!this.#token) throw ...`), then the REST fetch of gateway info, then
the shard list computation, then one `queueShard(id)` per listed id. The
second component records the external effects in order; on the token guard
failing it is empty (the throw happens before any fetch or mutation). -/
def spawn (m : ManagerInit) (fetched : APIGatewayBotData) :
    Except String (ManagerInit × List Int) × List SpawnAction :=
  match m.token with
  | none => (Except.error "A token is required for connecting to the gateway.", [])
  | some _ =>
      match computeShardQueue m.options fetched.shards with
      | Except.error e => (Except.error e, [SpawnAction.fetchGatewayInfo])
      | Except.ok (ids, opts) =>
          (Except.ok ({ m with options := opts }, ids),
            SpawnAction.fetchGatewayInfo :: ids.map SpawnAction.queueShard)

/-! ## Worker-side control channel handler

From `src/lib/Worker.ts`: the `parentPort.on('message', ...)` switch over
`MasterWorkerMessages`. The payload type of `PayloadDispatch` is opaque to
the handler and is a type parameter here. -/

/-- `MasterWorkerMessages` from `InternalWebSocket.ts`: the manager→shard
message kinds (`Identify`, `Destroy`, `Reconnect`, `FetchSessionData` carry
no data; `PayloadDispatch` carries a payload). -/
inductive MasterWorkerMessage (π : Type)
  | identify
  | destroy
  | reconnect
  | fetchSessionData
  | payloadDispatch (data : π)
  deriving DecidableEq

/-- The calls the worker's handler can make on its `WebSocketConnection`. -/
inductive ConnAction (π : Type)
  | newSession
  | destroyConn (resetSession : Bool)
  | queueWSPayload (data : π)
  deriving DecidableEq

/-- Modelled from the spec: `WebSocketConnection.destroy`'s `resetSession`
option defaults to `false` when called with no argument, as
`WebSocketConnection.ts` is not among the provided sources; §5 of the spec
fixes the intent — `Reconnect` is graceful: "close with 4000, preserve
session", versus `Destroy`: "discards the session". -/
def destroyDefaultResetSession : Bool := false

/-- The worker's message handler (`parentPort.on('message')` in
`Worker.ts`): `Identify → connection.newSession()`,
`Destroy → connection.destroy({ resetSession: true })`,
`Reconnect → connection.destroy()`,
`PayloadDispatch → connection.queueWSPayload(message.data)`; the switch has
no case for `FetchSessionData`, which therefore does nothing. -/
def handleMasterMessage {π : Type} :
    MasterWorkerMessage π → Option (ConnAction π)
  | MasterWorkerMessage.identify => some ConnAction.newSession
  | MasterWorkerMessage.destroy => some (ConnAction.destroyConn true)
  | MasterWorkerMessage.reconnect =>
      some (ConnAction.destroyConn destroyDefaultResetSession)
  | MasterWorkerMessage.payloadDispatch d =>
      some (ConnAction.queueWSPayload d)
  | MasterWorkerMessage.fetchSessionData => none

/-! ## The identify admission queue as a labelled transition system

`WebSocketManager.queueShard` is an `async` method; each invocation is one
*task*. The `AsyncQueue` of `@klasa/async-queue` is a FIFO of pending
promises: `wait()` appends the caller and resolves its promise once it is
at the head; `shift()` pops the head and resolves the next; `remaining` is
the number of queued promises (the current holder included). The state
below carries that queue (as the list of task ids in FIFO order), the task
table, the shard map (`this.shards`, reduced to each shard's status, the
only field `queueShard` reads), the cached `this.#gatewayInfo`, a
millisecond clock advanced by `sleep`, and an event log.

A task's program counter follows the body of `queueShard`:
0 suspended in `await this.#queue.wait()`;
1 about to run `getShard` and the `Connected` early return;
2 about to run `handleSessionLimit` (REST re-fetch, conditional sleep);
3 about to run `shard.connect(token)`;
4 about to run the `InvalidSession` re-enqueue check;
5 about to run the `remaining > 1` five-second cooldown check;
6 about to run the `finally` block's `this.#queue.shift()`;
7 returned. -/

/-- A task id: one per `queueShard` invocation, in creation order. -/
abbrev TaskId := Nat

/-- `GatewayStatus` from `InternalWebSocket.ts`: the shard's reply awaited
by `queueShard` (`const status = await shard.connect(...)`). -/
inductive GatewayStatus
  | Ready
  | InvalidSession
  deriving DecidableEq

/-- Modelled from the spec: `WebSocketShardStatus` is declared in
`WebSocketShard.ts`, which is not among the provided sources; the manager
only compares against `WebSocketShardStatus.Connected`, and §3 of the spec
gives `Disconnected` as the initial status of a fresh shard. -/
inductive WebSocketShardStatus
  | Disconnected
  | Connecting
  | Connected
  deriving DecidableEq

/-- One `queueShard` invocation: the shard id it was called with, its
program counter, and the `status` local once `shard.connect` returned. -/
structure QueueTask where
  shardId : Nat
  pc : Nat
  connectResult : Option GatewayStatus
  deriving DecidableEq

/-- Lookup in a `Nat`-keyed association list (the embedding of the
`Cache`/`Map` objects and of the task table). -/
def alookup {β : Type} : List (Nat × β) → Nat → Option β
  | [], _ => none
  | (k, v) :: r, t => if k = t then some v else alookup r t

/-- `Map.set`: replace the first binding of the key, append if absent. -/
def aset {β : Type} : List (Nat × β) → Nat → β → List (Nat × β)
  | [], t, v => [(t, v)]
  | (k, w) :: r, t, v => if k = t then (t, v) :: r else (k, w) :: aset r t v

/-- Observable events of a run, stamped with the clock at emission. -/
inductive MEvent
  | fetchedGateway (t : TaskId) (info : APIGatewayBotData)
  | slept (t : TaskId) (ms : Nat)
  | connect (t : TaskId) (shardId : Nat)
  | requeued (t : TaskId) (shardId : Nat)
  deriving DecidableEq

/-- The manager state of the transition system. -/
structure MState where
  queue : List TaskId
  tasks : List (TaskId × QueueTask)
  shards : List (Nat × WebSocketShardStatus)
  gatewayInfo : Option APIGatewayBotData
  time : Nat
  events : List (Nat × MEvent)
  nextTask : TaskId
  deriving DecidableEq

/-- The manager as constructed: no shards, an empty `AsyncQueue`, no cached
gateway info. -/
def initState : MState :=
  { queue := [], tasks := [], shards := [], gatewayInfo := none,
    time := 0, events := [], nextTask := 0 }

/-- Transition labels: `enqueue` is a caller (`spawn`, `scheduleIdentify`,
`scheduleShardRestart`) invoking `queueShard`, which synchronously pushes
onto the `AsyncQueue`; the per-task labels are the suspension-point-delimited
segments of the body; `tick` is time passing; the REST response and the
shard's reply enter as label data (the environment's nondeterminism). -/
inductive MLabel
  | enqueue (shardId : Nat)
  | wait (t : TaskId)
  | getShard (t : TaskId)
  | sessionLimit (t : TaskId) (fetched : APIGatewayBotData)
  | connect (t : TaskId) (result : GatewayStatus)
  | invalidCheck (t : TaskId)
  | remainingCheck (t : TaskId)
  | shift (t : TaskId)
  | tick (ms : Nat)
  deriving DecidableEq

/-- A caller invokes `queueShard(id)`: the call runs to
`await this.#queue.wait()`, appending a fresh task to the queue's tail. -/
def stepEnqueue (s : MState) (sh : Nat) : MState :=
  { s with
    queue := s.queue ++ [s.nextTask],
    tasks := aset s.tasks s.nextTask ⟨sh, 0, none⟩,
    nextTask := s.nextTask + 1 }

/-- `await this.#queue.wait()` resolves: only when the task is at the head
of the `AsyncQueue`. -/
def stepWait (s : MState) (t : TaskId) : Option MState :=
  (alookup s.tasks t).bind fun tk =>
    if tk.pc = 0 ∧ s.queue.head? = some t then
      some { s with tasks := aset s.tasks t ⟨tk.shardId, 1, none⟩ }
    else none

/-- `const shard = this.getShard(id)` — get or create (a fresh shard starts
`Disconnected`), re-`set` into `this.shards` — then the early return
`if (shard.status === WebSocketShardStatus.Connected) return;` (the
`finally` still runs, so the task jumps to the `shift`). -/
def stepGetShard (s : MState) (t : TaskId) : Option MState :=
  (alookup s.tasks t).bind fun tk =>
    if tk.pc = 1 then
      some { s with
        shards := aset s.shards tk.shardId
          ((alookup s.shards tk.shardId).getD WebSocketShardStatus.Disconnected),
        tasks := aset s.tasks t
          ⟨tk.shardId,
            if (alookup s.shards tk.shardId).getD WebSocketShardStatus.Disconnected =
                WebSocketShardStatus.Connected then 6 else 2, none⟩ }
    else none

/-- `await this.handleSessionLimit()`: re-fetch gateway info into
`this.#gatewayInfo`; if `session_start_limit.remaining === 0`, sleep
`reset_after` milliseconds. The REST response is the label's data. -/
def stepSessionLimit (s : MState) (t : TaskId) (fetched : APIGatewayBotData) :
    Option MState :=
  (alookup s.tasks t).bind fun tk =>
    if tk.pc = 2 then
      some { s with
        gatewayInfo := some fetched,
        time := s.time +
          (if fetched.session_start_limit.remaining = 0 then
            fetched.session_start_limit.reset_after else 0),
        events := s.events ++ ((s.time, MEvent.fetchedGateway t fetched) ::
          (if fetched.session_start_limit.remaining = 0 then
            [(s.time, MEvent.slept t fetched.session_start_limit.reset_after)]
          else [])),
        tasks := aset s.tasks t ⟨tk.shardId, 3, none⟩ }
    else none

/-- `const status = await shard.connect(this.#token!)`: the identify
attempt; the shard's eventual reply is the label's data (`Ready` leaves the
shard connected). -/
def stepConnect (s : MState) (t : TaskId) (result : GatewayStatus) :
    Option MState :=
  (alookup s.tasks t).bind fun tk =>
    if tk.pc = 3 then
      some { s with
        shards := aset s.shards tk.shardId
          (if result = GatewayStatus.Ready then WebSocketShardStatus.Connected
           else WebSocketShardStatus.Disconnected),
        events := s.events ++ [(s.time, MEvent.connect t tk.shardId)],
        tasks := aset s.tasks t ⟨tk.shardId, 4, some result⟩ }
    else none

/-- `if (status === GatewayStatus.InvalidSession) { ... this.queueShard(id); }`:
the un-awaited recursive call synchronously appends a fresh task for the
same shard to the tail of the `AsyncQueue`. -/
def stepInvalidCheck (s : MState) (t : TaskId) : Option MState :=
  (alookup s.tasks t).bind fun tk =>
    if tk.pc = 4 then
      if tk.connectResult = some GatewayStatus.InvalidSession then
        some { s with
          queue := s.queue ++ [s.nextTask],
          tasks := aset (aset s.tasks t ⟨tk.shardId, 5, tk.connectResult⟩)
            s.nextTask ⟨tk.shardId, 0, none⟩,
          events := s.events ++ [(s.time, MEvent.requeued t tk.shardId)],
          nextTask := s.nextTask + 1 }
      else some { s with tasks := aset s.tasks t ⟨tk.shardId, 5, tk.connectResult⟩ }
    else none

/-- `if (this.#queue.remaining > 1) { ... await sleep(5000); }`: the
five-second identify cooldown, taken only when another caller is queued
(the current holder counts toward `remaining`). -/
def stepRemainingCheck (s : MState) (t : TaskId) : Option MState :=
  (alookup s.tasks t).bind fun tk =>
    if tk.pc = 5 then
      if 1 < s.queue.length then
        some { s with
          time := s.time + 5000,
          events := s.events ++ [(s.time, MEvent.slept t 5000)],
          tasks := aset s.tasks t ⟨tk.shardId, 6, tk.connectResult⟩ }
      else
        some { s with tasks := aset s.tasks t ⟨tk.shardId, 6, tk.connectResult⟩ }
    else none

/-- `finally { this.#queue.shift(); }`: pop the head of the `AsyncQueue`,
resolving the next waiter's promise. -/
def stepShift (s : MState) (t : TaskId) : Option MState :=
  (alookup s.tasks t).bind fun tk =>
    if tk.pc = 6 then
      some { s with
        queue := s.queue.tail,
        tasks := aset s.tasks t ⟨tk.shardId, 7, tk.connectResult⟩ }
    else none

/-- The step function of the transition system. -/
def stepFn (s : MState) : MLabel → Option MState
  | MLabel.enqueue sh => some (stepEnqueue s sh)
  | MLabel.wait t => stepWait s t
  | MLabel.getShard t => stepGetShard s t
  | MLabel.sessionLimit t fetched => stepSessionLimit s t fetched
  | MLabel.connect t result => stepConnect s t result
  | MLabel.invalidCheck t => stepInvalidCheck s t
  | MLabel.remainingCheck t => stepRemainingCheck s t
  | MLabel.shift t => stepShift s t
  | MLabel.tick ms => some { s with time := s.time + ms }

/-- Run a schedule of labels from a state; `none` if a label is not
enabled. -/
def run (s : MState) : List MLabel → Option MState
  | [] => some s
  | l :: ls =>
      match stepFn s l with
      | some s1 => run s1 ls
      | none => none

/-- A task holds the admission-queue slot: its `await this.#queue.wait()`
has resolved and its `finally { this.#queue.shift() }` has not yet run. -/
def inFlight (s : MState) (t : TaskId) : Bool :=
  match alookup s.tasks t with
  | some tk => decide (1 ≤ tk.pc ∧ tk.pc ≤ 6)
  | none => false

/-- The clock values at which identify attempts (`shard.connect` calls)
were granted, in order. -/
def identifyTimes (s : MState) : List Nat :=
  s.events.filterMap fun e =>
    match e.2 with
    | MEvent.connect _ _ => some e.1
    | _ => none

/-- How many identify attempts were granted in the half-open window
`[t0, t0 + w)` of the clock. -/
def identifiesWithin (s : MState) (t0 w : Nat) : Nat :=
  (identifyTimes s).countP fun ti => decide (t0 ≤ ti ∧ ti < t0 + w)

/-- How many `connect` events of the given task a log fragment holds. -/
def connectsBy (t : TaskId) (evs : List (Nat × MEvent)) : Nat :=
  (evs.filter fun e =>
    match e.2 with
    | MEvent.connect tP _ => decide (tP = t)
    | _ => false).length

/-- The inductive invariant of reachable states: a task between `wait` and
`shift` is the head of the `AsyncQueue` (so there is at most one), and
every tabled task id is below the fresh-id counter. -/
def Inv (s : MState) : Prop :=
  (∀ t tk, alookup s.tasks t = some tk → 1 ≤ tk.pc → tk.pc ≤ 6 →
    s.queue.head? = some t) ∧
  (∀ t tk, alookup s.tasks t = some tk → t < s.nextTask)

/-- A gateway-info response with a plentiful session start limit (no
session-limit sleep is triggered). -/
def gInfoPlenty : APIGatewayBotData :=
  { url := "wss://gateway.example", shards := 2,
    session_start_limit := { total := 1000, remaining := 999, reset_after := 0 } }

/-- A schedule in which shard 0 is queued alone, identifies and reaches
`Ready` with nothing else waiting (so the `remaining > 1` check skips the
5-second cooldown), releases the slot, and only then shard 1 is queued and
identifies — with no time passing in between. -/
def identifyWindowLabels : List MLabel :=
  [MLabel.enqueue 0, MLabel.wait 0, MLabel.getShard 0,
   MLabel.sessionLimit 0 gInfoPlenty, MLabel.connect 0 GatewayStatus.Ready,
   MLabel.invalidCheck 0, MLabel.remainingCheck 0, MLabel.shift 0,
   MLabel.enqueue 1, MLabel.wait 1, MLabel.getShard 1,
   MLabel.sessionLimit 1 gInfoPlenty, MLabel.connect 1 GatewayStatus.Ready]

/-- A state with shard 3 already `Connected` in the shard map and its
re-queued task 0 at the head of the admission queue, another task waiting. -/
def earlyReturnState : MState :=
  { queue := [0, 1], tasks := [(0, ⟨3, 0, none⟩), (1, ⟨4, 0, none⟩)],
    shards := [(3, WebSocketShardStatus.Connected)], gatewayInfo := none,
    time := 42, events := [], nextTask := 2 }

/-! ### Association list lemmas -/

theorem alookup_aset {β : Type} (l : List (Nat × β)) (t tP : Nat) (v : β) :
    alookup (aset l t v) tP = if tP = t then some v else alookup l tP := by
  induction l with
  | nil =>
      by_cases h : tP = t
      · subst h; simp [aset, alookup]
      · simp [aset, alookup, h, Ne.symm h]
  | cons kv r ih =>
      obtain ⟨k, w⟩ := kv
      by_cases hk : k = t
      · subst hk
        by_cases h : tP = k
        · subst h; simp [aset, alookup]
        · simp [aset, alookup, h, Ne.symm h]
      · by_cases h : tP = k
        · subst h
          simp [aset, alookup, hk, Ne.symm hk]
        · simp [aset, alookup, hk, Ne.symm h, ih]

theorem aset_aset {β : Type} (l : List (Nat × β)) (t : Nat) (v w : β) :
    aset (aset l t v) t w = aset l t w := by
  induction l with
  | nil => simp [aset]
  | cons kv r ih =>
      obtain ⟨k, u⟩ := kv
      by_cases hk : k = t
      · subst hk; simp [aset]
      · simp [aset, hk, ih]

theorem head?_append_of_head? {α : Type} {l : List α} {a : α}
    (h : l.head? = some a) (l2 : List α) : (l ++ l2).head? = some a := by
  cases l with
  | nil => simp at h
  | cons x xs => simpa using h

/-! ### Step characterizations -/

theorem stepWait_some {s s1 : MState} {t : TaskId} (hs : stepWait s t = some s1) :
    ∃ tk, alookup s.tasks t = some tk ∧ tk.pc = 0 ∧ s.queue.head? = some t ∧
      s1 = { s with tasks := aset s.tasks t ⟨tk.shardId, 1, none⟩ } := by
  unfold stepWait at hs
  cases hlk : alookup s.tasks t with
  | none => rw [hlk] at hs; simp at hs
  | some tk =>
      rw [hlk] at hs
      simp only [Option.some_bind] at hs
      split at hs
      · rename_i hcond
        exact ⟨tk, rfl, hcond.1, hcond.2, (Option.some.inj hs).symm⟩
      · simp at hs

theorem stepGetShard_some {s s1 : MState} {t : TaskId}
    (hs : stepGetShard s t = some s1) :
    ∃ tk, alookup s.tasks t = some tk ∧ tk.pc = 1 ∧
      s1 = { s with
        shards := aset s.shards tk.shardId
          ((alookup s.shards tk.shardId).getD WebSocketShardStatus.Disconnected),
        tasks := aset s.tasks t
          ⟨tk.shardId,
            if (alookup s.shards tk.shardId).getD WebSocketShardStatus.Disconnected =
                WebSocketShardStatus.Connected then 6 else 2, none⟩ } := by
  unfold stepGetShard at hs
  cases hlk : alookup s.tasks t with
  | none => rw [hlk] at hs; simp at hs
  | some tk =>
      rw [hlk] at hs
      simp only [Option.some_bind] at hs
      split at hs
      · rename_i hcond
        exact ⟨tk, rfl, hcond, (Option.some.inj hs).symm⟩
      · simp at hs

theorem stepSessionLimit_some {s s1 : MState} {t : TaskId}
    {fetched : APIGatewayBotData} (hs : stepSessionLimit s t fetched = some s1) :
    ∃ tk, alookup s.tasks t = some tk ∧ tk.pc = 2 ∧
      s1 = { s with
        gatewayInfo := some fetched,
        time := s.time +
          (if fetched.session_start_limit.remaining = 0 then
            fetched.session_start_limit.reset_after else 0),
        events := s.events ++ ((s.time, MEvent.fetchedGateway t fetched) ::
          (if fetched.session_start_limit.remaining = 0 then
            [(s.time, MEvent.slept t fetched.session_start_limit.reset_after)]
          else [])),
        tasks := aset s.tasks t ⟨tk.shardId, 3, none⟩ } := by
  unfold stepSessionLimit at hs
  cases hlk : alookup s.tasks t with
  | none => rw [hlk] at hs; simp at hs
  | some tk =>
      rw [hlk] at hs
      simp only [Option.some_bind] at hs
      split at hs
      · rename_i hcond
        exact ⟨tk, rfl, hcond, (Option.some.inj hs).symm⟩
      · simp at hs

theorem stepConnect_some {s s1 : MState} {t : TaskId} {result : GatewayStatus}
    (hs : stepConnect s t result = some s1) :
    ∃ tk, alookup s.tasks t = some tk ∧ tk.pc = 3 ∧
      s1 = { s with
        shards := aset s.shards tk.shardId
          (if result = GatewayStatus.Ready then WebSocketShardStatus.Connected
           else WebSocketShardStatus.Disconnected),
        events := s.events ++ [(s.time, MEvent.connect t tk.shardId)],
        tasks := aset s.tasks t ⟨tk.shardId, 4, some result⟩ } := by
  unfold stepConnect at hs
  cases hlk : alookup s.tasks t with
  | none => rw [hlk] at hs; simp at hs
  | some tk =>
      rw [hlk] at hs
      simp only [Option.some_bind] at hs
      split at hs
      · rename_i hcond
        exact ⟨tk, rfl, hcond, (Option.some.inj hs).symm⟩
      · simp at hs

theorem stepInvalidCheck_some {s s1 : MState} {t : TaskId}
    (hs : stepInvalidCheck s t = some s1) :
    ∃ tk, alookup s.tasks t = some tk ∧ tk.pc = 4 ∧
      ((tk.connectResult = some GatewayStatus.InvalidSession ∧
        s1 = { s with
          queue := s.queue ++ [s.nextTask],
          tasks := aset (aset s.tasks t ⟨tk.shardId, 5, tk.connectResult⟩)
            s.nextTask ⟨tk.shardId, 0, none⟩,
          events := s.events ++ [(s.time, MEvent.requeued t tk.shardId)],
          nextTask := s.nextTask + 1 }) ∨
       (tk.connectResult ≠ some GatewayStatus.InvalidSession ∧
        s1 = { s with tasks := aset s.tasks t ⟨tk.shardId, 5, tk.connectResult⟩ })) := by
  unfold stepInvalidCheck at hs
  cases hlk : alookup s.tasks t with
  | none => rw [hlk] at hs; simp at hs
  | some tk =>
      rw [hlk] at hs
      simp only [Option.some_bind] at hs
      split at hs
      · rename_i hcond
        refine ⟨tk, rfl, hcond, ?_⟩
        split at hs
        · rename_i hres
          exact Or.inl ⟨hres, (Option.some.inj hs).symm⟩
        · rename_i hres
          exact Or.inr ⟨hres, (Option.some.inj hs).symm⟩
      · simp at hs

theorem stepRemainingCheck_some {s s1 : MState} {t : TaskId}
    (hs : stepRemainingCheck s t = some s1) :
    ∃ tk, alookup s.tasks t = some tk ∧ tk.pc = 5 ∧
      ((1 < s.queue.length ∧
        s1 = { s with
          time := s.time + 5000,
          events := s.events ++ [(s.time, MEvent.slept t 5000)],
          tasks := aset s.tasks t ⟨tk.shardId, 6, tk.connectResult⟩ }) ∨
       (¬ 1 < s.queue.length ∧
        s1 = { s with tasks := aset s.tasks t ⟨tk.shardId, 6, tk.connectResult⟩ })) := by
  unfold stepRemainingCheck at hs
  cases hlk : alookup s.tasks t with
  | none => rw [hlk] at hs; simp at hs
  | some tk =>
      rw [hlk] at hs
      simp only [Option.some_bind] at hs
      split at hs
      · rename_i hcond
        refine ⟨tk, rfl, hcond, ?_⟩
        split at hs
        · rename_i hlen
          exact Or.inl ⟨hlen, (Option.some.inj hs).symm⟩
        · rename_i hlen
          exact Or.inr ⟨hlen, (Option.some.inj hs).symm⟩
      · simp at hs

theorem stepShift_some {s s1 : MState} {t : TaskId}
    (hs : stepShift s t = some s1) :
    ∃ tk, alookup s.tasks t = some tk ∧ tk.pc = 6 ∧
      s1 = { s with
        queue := s.queue.tail,
        tasks := aset s.tasks t ⟨tk.shardId, 7, tk.connectResult⟩ } := by
  unfold stepShift at hs
  cases hlk : alookup s.tasks t with
  | none => rw [hlk] at hs; simp at hs
  | some tk =>
      rw [hlk] at hs
      simp only [Option.some_bind] at hs
      split at hs
      · rename_i hcond
        exact ⟨tk, rfl, hcond, (Option.some.inj hs).symm⟩
      · simp at hs

/-! ### The admission-queue invariant -/

theorem Inv_initState : Inv initState := by
  constructor
  · intro t tk hlk
    simp [initState, alookup] at hlk
  · intro t tk hlk
    simp [initState, alookup] at hlk

/-- Helper: the invariant survives an update of one existing task when the
queue, the fresh-id counter are untouched and the task is at the head. -/
theorem Inv_of_aset {s s1 : MState} (h : Inv s) {t : TaskId} {tk0 : QueueTask}
    (hhead : s.queue.head? = some t) (hlk : alookup s.tasks t = some tk0)
    {newTk : QueueTask} (hq : s1.queue = s.queue)
    (htk : s1.tasks = aset s.tasks t newTk) (hn : s1.nextTask = s.nextTask) :
    Inv s1 := by
  obtain ⟨hHead, hLt⟩ := h
  constructor
  · intro u uk hulk h1 h6
    rw [htk, alookup_aset] at hulk
    rw [hq]
    by_cases hu : u = t
    · subst hu; exact hhead
    · rw [if_neg hu] at hulk
      exact hHead u uk hulk h1 h6
  · intro u uk hulk
    rw [htk, alookup_aset] at hulk
    rw [hn]
    by_cases hu : u = t
    · subst hu; exact hLt u tk0 hlk
    · rw [if_neg hu] at hulk
      exact hLt u uk hulk

theorem Inv_stepEnqueue {s : MState} (h : Inv s) (sh : Nat) :
    Inv (stepEnqueue s sh) := by
  obtain ⟨hHead, hLt⟩ := h
  constructor
  · intro t tk hlk h1 h6
    simp only [stepEnqueue] at hlk ⊢
    rw [alookup_aset] at hlk
    by_cases ht : t = s.nextTask
    · rw [if_pos ht] at hlk
      cases hlk
      simp at h1
    · rw [if_neg ht] at hlk
      exact head?_append_of_head? (hHead t tk hlk h1 h6) _
  · intro t tk hlk
    simp only [stepEnqueue] at hlk ⊢
    rw [alookup_aset] at hlk
    by_cases ht : t = s.nextTask
    · subst ht; exact Nat.lt_succ_self _
    · rw [if_neg ht] at hlk
      exact Nat.lt_succ_of_lt (hLt t tk hlk)

theorem Inv_step {s s1 : MState} {l : MLabel} (h : Inv s)
    (hs : stepFn s l = some s1) : Inv s1 := by
  cases l with
  | enqueue sh =>
      simp only [stepFn] at hs
      cases hs
      exact Inv_stepEnqueue h sh
  | wait t =>
      obtain ⟨tk, hlk, hpc, hhead, rfl⟩ := stepWait_some hs
      exact Inv_of_aset h hhead hlk rfl rfl rfl
  | getShard t =>
      obtain ⟨tk, hlk, hpc, rfl⟩ := stepGetShard_some hs
      exact Inv_of_aset h (h.1 t tk hlk (by omega) (by omega)) hlk rfl rfl rfl
  | sessionLimit t fetched =>
      obtain ⟨tk, hlk, hpc, rfl⟩ := stepSessionLimit_some hs
      exact Inv_of_aset h (h.1 t tk hlk (by omega) (by omega)) hlk rfl rfl rfl
  | connect t result =>
      obtain ⟨tk, hlk, hpc, rfl⟩ := stepConnect_some hs
      exact Inv_of_aset h (h.1 t tk hlk (by omega) (by omega)) hlk rfl rfl rfl
  | invalidCheck t =>
      obtain ⟨tk, hlk, hpc, hcase⟩ := stepInvalidCheck_some hs
      have hhead : s.queue.head? = some t := h.1 t tk hlk (by omega) (by omega)
      rcases hcase with ⟨hres, rfl⟩ | ⟨hres, rfl⟩
      · obtain ⟨hHead, hLt⟩ := h
        constructor
        · intro u uk hulk h1 h6
          simp only [alookup_aset] at hulk ⊢
          by_cases hun : u = s.nextTask
          · rw [if_pos hun] at hulk
            cases hulk
            simp at h1
          · rw [if_neg hun] at hulk
            by_cases hut : u = t
            · subst hut
              rw [if_pos rfl] at hulk
              exact head?_append_of_head? hhead _
            · rw [if_neg hut] at hulk
              exact head?_append_of_head? (hHead u uk hulk h1 h6) _
        · intro u uk hulk
          simp only [alookup_aset] at hulk
          by_cases hun : u = s.nextTask
          · subst hun; exact Nat.lt_succ_self _
          · rw [if_neg hun] at hulk
            by_cases hut : u = t
            · subst hut; exact Nat.lt_succ_of_lt (hLt u tk hlk)
            · rw [if_neg hut] at hulk
              exact Nat.lt_succ_of_lt (hLt u uk hulk)
      · exact Inv_of_aset h hhead hlk rfl rfl rfl
  | remainingCheck t =>
      obtain ⟨tk, hlk, hpc, hcase⟩ := stepRemainingCheck_some hs
      have hhead : s.queue.head? = some t := h.1 t tk hlk (by omega) (by omega)
      rcases hcase with ⟨hlen, rfl⟩ | ⟨hlen, rfl⟩
      · exact Inv_of_aset h hhead hlk rfl rfl rfl
      · exact Inv_of_aset h hhead hlk rfl rfl rfl
  | shift t =>
      obtain ⟨tk, hlk, hpc, rfl⟩ := stepShift_some hs
      obtain ⟨hHead, hLt⟩ := h
      have hhead : s.queue.head? = some t := hHead t tk hlk (by omega) (by omega)
      constructor
      · intro u uk hulk h1 h6
        rw [alookup_aset] at hulk
        by_cases hut : u = t
        · rw [if_pos hut] at hulk
          cases hulk
          simp at h6
        · rw [if_neg hut] at hulk
          exact absurd ((hHead u uk hulk h1 h6).symm.trans hhead)
            (by simpa using hut)
      · intro u uk hulk
        rw [alookup_aset] at hulk
        by_cases hut : u = t
        · subst hut; exact hLt u tk hlk
        · rw [if_neg hut] at hulk
          exact hLt u uk hulk
  | tick ms =>
      simp only [stepFn] at hs
      cases hs
      obtain ⟨hHead, hLt⟩ := h
      exact ⟨hHead, hLt⟩

theorem Inv_run : ∀ {labels : List MLabel} {s s1 : MState}, Inv s →
    run s labels = some s1 → Inv s1 := by
  intro labels
  induction labels with
  | nil =>
      intro s s1 h hr
      simp only [run] at hr
      cases hr
      exact h
  | cons l ls ih =>
      intro s s1 h hr
      simp only [run] at hr
      cases hstep : stepFn s l with
      | none => rw [hstep] at hr; simp at hr
      | some s2 =>
          rw [hstep] at hr
          exact ih (Inv_step h hstep) hr

/-! ### Clock and event-log lemmas -/

theorem time_mono_step {s s1 : MState} {l : MLabel}
    (hs : stepFn s l = some s1) : s.time ≤ s1.time := by
  cases l with
  | enqueue sh =>
      simp only [stepFn] at hs
      cases hs
      exact le_rfl
  | wait t =>
      obtain ⟨tk, hlk, hpc, hhead, rfl⟩ := stepWait_some hs
      exact le_rfl
  | getShard t =>
      obtain ⟨tk, hlk, hpc, rfl⟩ := stepGetShard_some hs
      exact le_rfl
  | sessionLimit t fetched =>
      obtain ⟨tk, hlk, hpc, rfl⟩ := stepSessionLimit_some hs
      exact Nat.le_add_right _ _
  | connect t result =>
      obtain ⟨tk, hlk, hpc, rfl⟩ := stepConnect_some hs
      exact le_rfl
  | invalidCheck t =>
      obtain ⟨tk, hlk, hpc, hcase⟩ := stepInvalidCheck_some hs
      rcases hcase with ⟨hres, rfl⟩ | ⟨hres, rfl⟩ <;> exact le_rfl
  | remainingCheck t =>
      obtain ⟨tk, hlk, hpc, hcase⟩ := stepRemainingCheck_some hs
      rcases hcase with ⟨hlen, rfl⟩ | ⟨hlen, rfl⟩
      · exact Nat.le_add_right _ _
      · exact le_rfl
  | shift t =>
      obtain ⟨tk, hlk, hpc, rfl⟩ := stepShift_some hs
      exact le_rfl
  | tick ms =>
      simp only [stepFn] at hs
      cases hs
      exact Nat.le_add_right _ _

theorem time_mono_run : ∀ {labels : List MLabel} {s s1 : MState},
    run s labels = some s1 → s.time ≤ s1.time := by
  intro labels
  induction labels with
  | nil =>
      intro s s1 hr
      simp only [run] at hr
      cases hr
      exact le_rfl
  | cons l ls ih =>
      intro s s1 hr
      simp only [run] at hr
      cases hstep : stepFn s l with
      | none => rw [hstep] at hr; simp at hr
      | some s2 =>
          rw [hstep] at hr
          exact le_trans (time_mono_step hstep) (ih hr)

theorem events_step {s s1 : MState} {l : MLabel}
    (hs : stepFn s l = some s1) :
    ∃ d, s1.events = s.events ++ d ∧ ∀ e ∈ d, e.1 = s.time := by
  cases l with
  | enqueue sh =>
      simp only [stepFn] at hs
      cases hs
      exact ⟨[], by simp [stepEnqueue], by simp⟩
  | wait t =>
      obtain ⟨tk, hlk, hpc, hhead, rfl⟩ := stepWait_some hs
      exact ⟨[], by simp, by simp⟩
  | getShard t =>
      obtain ⟨tk, hlk, hpc, rfl⟩ := stepGetShard_some hs
      exact ⟨[], by simp, by simp⟩
  | sessionLimit t fetched =>
      obtain ⟨tk, hlk, hpc, rfl⟩ := stepSessionLimit_some hs
      refine ⟨_, rfl, ?_⟩
      intro e he
      rcases List.mem_cons.mp he with rfl | he2
      · rfl
      · split at he2
        · simp at he2
          rw [he2]
        · simp at he2
  | connect t result =>
      obtain ⟨tk, hlk, hpc, rfl⟩ := stepConnect_some hs
      refine ⟨_, rfl, ?_⟩
      intro e he
      simp at he
      rw [he]
  | invalidCheck t =>
      obtain ⟨tk, hlk, hpc, hcase⟩ := stepInvalidCheck_some hs
      rcases hcase with ⟨hres, rfl⟩ | ⟨hres, rfl⟩
      · refine ⟨_, rfl, ?_⟩
        intro e he
        simp at he
        rw [he]
      · exact ⟨[], by simp, by simp⟩
  | remainingCheck t =>
      obtain ⟨tk, hlk, hpc, hcase⟩ := stepRemainingCheck_some hs
      rcases hcase with ⟨hlen, rfl⟩ | ⟨hlen, rfl⟩
      · refine ⟨_, rfl, ?_⟩
        intro e he
        simp at he
        rw [he]
      · exact ⟨[], by simp, by simp⟩
  | shift t =>
      obtain ⟨tk, hlk, hpc, rfl⟩ := stepShift_some hs
      exact ⟨[], by simp, by simp⟩
  | tick ms =>
      simp only [stepFn] at hs
      cases hs
      exact ⟨[], by simp, by simp⟩

theorem events_run : ∀ {labels : List MLabel} {s s1 : MState},
    run s labels = some s1 →
    ∃ d, s1.events = s.events ++ d ∧ ∀ e ∈ d, s.time ≤ e.1 := by
  intro labels
  induction labels with
  | nil =>
      intro s s1 hr
      simp only [run] at hr
      cases hr
      exact ⟨[], by simp, by simp⟩
  | cons l ls ih =>
      intro s s1 hr
      simp only [run] at hr
      cases hstep : stepFn s l with
      | none => rw [hstep] at hr; simp at hr
      | some s2 =>
          rw [hstep] at hr
          obtain ⟨d1, hd1, hstamp1⟩ := events_step hstep
          obtain ⟨d2, hd2, hstamp2⟩ := ih hr
          refine ⟨d1 ++ d2, by rw [hd2, hd1, List.append_assoc], ?_⟩
          intro e he
          rcases List.mem_append.mp he with h1 | h2
          · exact le_of_eq (hstamp1 e h1).symm
          · exact le_trans (time_mono_step hstep) (hstamp2 e h2)

theorem connectsBy_append (t : TaskId) (l1 l2 : List (Nat × MEvent)) :
    connectsBy t (l1 ++ l2) = connectsBy t l1 + connectsBy t l2 := by
  simp [connectsBy, List.filter_append]

/-! ### Stability of a finished identify: the task never connects again -/

theorem pc4_stable_step {s s1 : MState} {l : MLabel} (hInv : Inv s)
    (hs : stepFn s l = some s1) {t : TaskId} {tk : QueueTask}
    (hlk : alookup s.tasks t = some tk) (h4 : 4 ≤ tk.pc) :
    (∃ tk1, alookup s1.tasks t = some tk1 ∧ 4 ≤ tk1.pc) ∧
      ∃ d, s1.events = s.events ++ d ∧ connectsBy t d = 0 := by
  have hne : t ≠ s.nextTask := Nat.ne_of_lt (hInv.2 t tk hlk)
  cases l with
  | enqueue sh =>
      simp only [stepFn] at hs
      cases hs
      constructor
      · refine ⟨tk, ?_, h4⟩
        simp only [stepEnqueue]
        rw [alookup_aset, if_neg hne]
        exact hlk
      · exact ⟨[], by simp [stepEnqueue], by simp [connectsBy]⟩
  | wait u =>
      obtain ⟨uk, hulk, hpc, hhead, rfl⟩ := stepWait_some hs
      by_cases hut : u = t
      · subst hut
        rw [hulk] at hlk
        cases hlk
        omega
      · constructor
        · refine ⟨tk, ?_, h4⟩
          rw [alookup_aset, if_neg (Ne.symm hut)]
          exact hlk
        · exact ⟨[], by simp, by simp [connectsBy]⟩
  | getShard u =>
      obtain ⟨uk, hulk, hpc, rfl⟩ := stepGetShard_some hs
      by_cases hut : u = t
      · subst hut
        rw [hulk] at hlk
        cases hlk
        omega
      · constructor
        · refine ⟨tk, ?_, h4⟩
          rw [alookup_aset, if_neg (Ne.symm hut)]
          exact hlk
        · exact ⟨[], by simp, by simp [connectsBy]⟩
  | sessionLimit u fetched =>
      obtain ⟨uk, hulk, hpc, rfl⟩ := stepSessionLimit_some hs
      by_cases hut : u = t
      · subst hut
        rw [hulk] at hlk
        cases hlk
        omega
      · constructor
        · refine ⟨tk, ?_, h4⟩
          rw [alookup_aset, if_neg (Ne.symm hut)]
          exact hlk
        · refine ⟨_, rfl, ?_⟩
          by_cases hrem : fetched.session_start_limit.remaining = 0 <;>
            simp [connectsBy, hrem]
  | connect u result =>
      obtain ⟨uk, hulk, hpc, rfl⟩ := stepConnect_some hs
      by_cases hut : u = t
      · subst hut
        rw [hulk] at hlk
        cases hlk
        omega
      · constructor
        · refine ⟨tk, ?_, h4⟩
          rw [alookup_aset, if_neg (Ne.symm hut)]
          exact hlk
        · exact ⟨_, rfl, by simp [connectsBy, hut]⟩
  | invalidCheck u =>
      obtain ⟨uk, hulk, hpc, hcase⟩ := stepInvalidCheck_some hs
      rcases hcase with ⟨hres, rfl⟩ | ⟨hres, rfl⟩
      · constructor
        · by_cases hut : u = t
          · subst hut
            rw [hulk] at hlk
            cases hlk
            refine ⟨⟨tk.shardId, 5, tk.connectResult⟩, ?_, (by norm_num : (4:ℕ) ≤ 5)⟩
            rw [alookup_aset, if_neg hne, alookup_aset, if_pos rfl]
          · refine ⟨tk, ?_, h4⟩
            rw [alookup_aset, if_neg hne, alookup_aset, if_neg (Ne.symm hut)]
            exact hlk
        · exact ⟨_, rfl, by simp [connectsBy]⟩
      · by_cases hut : u = t
        · subst hut
          rw [hulk] at hlk
          cases hlk
          constructor
          · refine ⟨⟨tk.shardId, 5, tk.connectResult⟩, ?_, (by norm_num : (4:ℕ) ≤ 5)⟩
            rw [alookup_aset, if_pos rfl]
          · exact ⟨[], by simp, by simp [connectsBy]⟩
        · constructor
          · refine ⟨tk, ?_, h4⟩
            rw [alookup_aset, if_neg (Ne.symm hut)]
            exact hlk
          · exact ⟨[], by simp, by simp [connectsBy]⟩
  | remainingCheck u =>
      obtain ⟨uk, hulk, hpc, hcase⟩ := stepRemainingCheck_some hs
      have htask : ∀ w : QueueTask, w.pc = 6 →
          ∃ tk1, alookup (aset s.tasks u w) t = some tk1 ∧ 4 ≤ tk1.pc := by
        intro w hw
        by_cases hut : u = t
        · subst hut
          refine ⟨w, ?_, by omega⟩
          rw [alookup_aset, if_pos rfl]
        · refine ⟨tk, ?_, h4⟩
          rw [alookup_aset, if_neg (Ne.symm hut)]
          exact hlk
      rcases hcase with ⟨hlen, rfl⟩ | ⟨hlen, rfl⟩
      · exact ⟨htask _ rfl, _, rfl, by simp [connectsBy]⟩
      · exact ⟨htask _ rfl, [], by simp, by simp [connectsBy]⟩
  | shift u =>
      obtain ⟨uk, hulk, hpc, rfl⟩ := stepShift_some hs
      constructor
      · by_cases hut : u = t
        · subst hut
          rw [hulk] at hlk
          cases hlk
          refine ⟨⟨tk.shardId, 7, tk.connectResult⟩, ?_, (by norm_num : (4:ℕ) ≤ 7)⟩
          rw [alookup_aset, if_pos rfl]
        · refine ⟨tk, ?_, h4⟩
          rw [alookup_aset, if_neg (Ne.symm hut)]
          exact hlk
      · exact ⟨[], by simp, by simp [connectsBy]⟩
  | tick ms =>
      simp only [stepFn] at hs
      cases hs
      exact ⟨⟨tk, hlk, h4⟩, [], by simp, by simp [connectsBy]⟩

theorem pc4_stable_run : ∀ {labels : List MLabel} {s s1 : MState}, Inv s →
    run s labels = some s1 → ∀ {t : TaskId} {tk : QueueTask},
    alookup s.tasks t = some tk → 4 ≤ tk.pc →
    ∃ d, s1.events = s.events ++ d ∧ connectsBy t d = 0 := by
  intro labels
  induction labels with
  | nil =>
      intro s s1 _ hr t tk hlk h4
      simp only [run] at hr
      cases hr
      exact ⟨[], by simp, by simp [connectsBy]⟩
  | cons l ls ih =>
      intro s s1 hInv hr t tk hlk h4
      simp only [run] at hr
      cases hstep : stepFn s l with
      | none => rw [hstep] at hr; simp at hr
      | some s2 =>
          rw [hstep] at hr
          obtain ⟨⟨tk2, hlk2, h42⟩, d1, hd1, hc1⟩ :=
            pc4_stable_step hInv hstep hlk h4
          obtain ⟨d2, hd2, hc2⟩ := ih (Inv_step hInv hstep) hr hlk2 h42
          refine ⟨d1 ++ d2, by rw [hd2, hd1, List.append_assoc], ?_⟩
          rw [connectsBy_append, hc1, hc2]

/-! ### Provenance of an identify grant: only `handleSessionLimit` enables it -/

theorem pc3_from {s s1 : MState} {l : MLabel} (hs : stepFn s l = some s1)
    {t : TaskId} {tk1 : QueueTask} (hlk1 : alookup s1.tasks t = some tk1)
    (h3 : tk1.pc = 3) :
    (∃ tk, alookup s.tasks t = some tk ∧ tk.pc = 3) ∨
      ∃ fetched, l = MLabel.sessionLimit t fetched := by
  cases l with
  | enqueue sh =>
      simp only [stepFn] at hs
      cases hs
      simp only [stepEnqueue] at hlk1
      rw [alookup_aset] at hlk1
      by_cases ht : t = s.nextTask
      · rw [if_pos ht] at hlk1
        cases hlk1
        simp at h3
      · rw [if_neg ht] at hlk1
        exact Or.inl ⟨tk1, hlk1, h3⟩
  | wait u =>
      obtain ⟨uk, hulk, hpc, hhead, rfl⟩ := stepWait_some hs
      rw [alookup_aset] at hlk1
      by_cases hut : t = u
      · rw [if_pos hut] at hlk1
        cases hlk1
        simp at h3
      · rw [if_neg hut] at hlk1
        exact Or.inl ⟨tk1, hlk1, h3⟩
  | getShard u =>
      obtain ⟨uk, hulk, hpc, rfl⟩ := stepGetShard_some hs
      rw [alookup_aset] at hlk1
      by_cases hut : t = u
      · rw [if_pos hut] at hlk1
        cases hlk1
        split at h3 <;> simp at h3
      · rw [if_neg hut] at hlk1
        exact Or.inl ⟨tk1, hlk1, h3⟩
  | sessionLimit u fetched =>
      obtain ⟨uk, hulk, hpc, rfl⟩ := stepSessionLimit_some hs
      by_cases hut : t = u
      · subst hut
        exact Or.inr ⟨fetched, rfl⟩
      · rw [alookup_aset, if_neg hut] at hlk1
        exact Or.inl ⟨tk1, hlk1, h3⟩
  | connect u result =>
      obtain ⟨uk, hulk, hpc, rfl⟩ := stepConnect_some hs
      rw [alookup_aset] at hlk1
      by_cases hut : t = u
      · rw [if_pos hut] at hlk1
        cases hlk1
        simp at h3
      · rw [if_neg hut] at hlk1
        exact Or.inl ⟨tk1, hlk1, h3⟩
  | invalidCheck u =>
      obtain ⟨uk, hulk, hpc, hcase⟩ := stepInvalidCheck_some hs
      rcases hcase with ⟨hres, rfl⟩ | ⟨hres, rfl⟩
      · rw [alookup_aset] at hlk1
        by_cases htn : t = s.nextTask
        · rw [if_pos htn] at hlk1
          cases hlk1
          simp at h3
        · rw [if_neg htn, alookup_aset] at hlk1
          by_cases hut : t = u
          · rw [if_pos hut] at hlk1
            cases hlk1
            simp at h3
          · rw [if_neg hut] at hlk1
            exact Or.inl ⟨tk1, hlk1, h3⟩
      · rw [alookup_aset] at hlk1
        by_cases hut : t = u
        · rw [if_pos hut] at hlk1
          cases hlk1
          simp at h3
        · rw [if_neg hut] at hlk1
          exact Or.inl ⟨tk1, hlk1, h3⟩
  | remainingCheck u =>
      obtain ⟨uk, hulk, hpc, hcase⟩ := stepRemainingCheck_some hs
      rcases hcase with ⟨hlen, rfl⟩ | ⟨hlen, rfl⟩ <;>
      · rw [alookup_aset] at hlk1
        by_cases hut : t = u
        · rw [if_pos hut] at hlk1
          cases hlk1
          simp at h3
        · rw [if_neg hut] at hlk1
          exact Or.inl ⟨tk1, hlk1, h3⟩
  | shift u =>
      obtain ⟨uk, hulk, hpc, rfl⟩ := stepShift_some hs
      rw [alookup_aset] at hlk1
      by_cases hut : t = u
      · rw [if_pos hut] at hlk1
        cases hlk1
        simp at h3
      · rw [if_neg hut] at hlk1
        exact Or.inl ⟨tk1, hlk1, h3⟩
  | tick ms =>
      simp only [stepFn] at hs
      cases hs
      exact Or.inl ⟨tk1, hlk1, h3⟩

/-! ## The claims -/

/-- Claim C1: identify admission is globally serialized — in every run of
the manager, at most one task is between acquiring the admission-queue slot
(`AsyncQueue.wait` resolving) and releasing it (`AsyncQueue.shift`), and an
identify attempt (`shard.connect`) can only be taken by a task holding the
slot, so at most one identify attempt is in flight manager-wide. -/
theorem identify_admission_serialized :
    (∀ labels s, run initState labels = some s →
      ∀ t1 t2, inFlight s t1 = true → inFlight s t2 = true → t1 = t2) ∧
    (∀ s t result s1, stepFn s (MLabel.connect t result) = some s1 →
      inFlight s t = true) := by
  constructor
  · intro labels s hr t1 t2 h1 h2
    have hInv := Inv_run Inv_initState hr
    unfold inFlight at h1 h2
    cases hlk1 : alookup s.tasks t1 with
    | none => rw [hlk1] at h1; simp at h1
    | some tk1 =>
        rw [hlk1] at h1
        cases hlk2 : alookup s.tasks t2 with
        | none => rw [hlk2] at h2; simp at h2
        | some tk2 =>
            rw [hlk2] at h2
            have hp1 := of_decide_eq_true h1
            have hp2 := of_decide_eq_true h2
            have c1 := hInv.1 t1 tk1 hlk1 hp1.1 hp1.2
            have c2 := hInv.1 t2 tk2 hlk2 hp2.1 hp2.2
            exact Option.some.inj (c1.symm.trans c2)
  · intro s t result s1 hs
    obtain ⟨tk, hlk, hpc, rfl⟩ := stepConnect_some hs
    unfold inFlight
    rw [hlk]
    exact decide_eq_true (by omega)

/-- Claim C2, counterexample: a run in which two IDENTIFY frames are sent
in the same 5-second window. Shard 0 identifies at clock 0 with nothing
else queued, so the `remaining > 1` check skips the cooldown and the slot
is released at clock 0; shard 1, queued immediately after, also identifies
at clock 0 — so the window `[0, 5000)` holds 2 identifies, refuting "the
number of IDENTIFY frames sent manager-wide over any 5-second window is at
most 1". -/
theorem identify_window_counterexample :
    (run initState identifyWindowLabels).map
      (fun s => identifiesWithin s 0 5000) = some 2 ∧
    (run initState identifyWindowLabels).map identifyTimes = some [0, 0] := by
  constructor
  · rfl
  · rfl

/-- Claim C2, amended: after an admission, the `remaining > 1` check sleeps
5000 ms while still holding the queue slot (the release happens afterwards,
in the `finally` block) if and only if another caller is waiting on the
queue; the clock never decreases along a run, and every event logged after
a state is stamped no earlier than that state's clock — so when the
cooldown is taken, every later identify grant is at least 5000 ms after the
check, but when the queue has emptied the slot is released with no cooldown
and a later-queued shard may identify within 5 seconds. -/
theorem identify_cooldown_amended :
    (∀ s t s1, stepFn s (MLabel.remainingCheck t) = some s1 →
        s1.queue = s.queue ∧
        (1 < s.queue.length → s1.time = s.time + 5000) ∧
        (¬ 1 < s.queue.length → s1.time = s.time ∧ s1.events = s.events)) ∧
    (∀ s labels s1, run s labels = some s1 → s.time ≤ s1.time) ∧
    (∀ s labels s1, run s labels = some s1 →
        ∀ e ∈ s1.events.drop s.events.length, s.time ≤ e.1) := by
  refine ⟨?_, ?_, ?_⟩
  · intro s t s1 hs
    obtain ⟨tk, hlk, hpc, hcase⟩ := stepRemainingCheck_some hs
    rcases hcase with ⟨hlen, rfl⟩ | ⟨hlen, rfl⟩
    · exact ⟨rfl, fun _ => rfl, fun hc => absurd hlen hc⟩
    · exact ⟨rfl, fun hc => absurd hc hlen, fun _ => ⟨rfl, rfl⟩⟩
  · intro s labels s1 hr
    exact time_mono_run hr
  · intro s labels s1 hr e he
    obtain ⟨d, hd, hstamp⟩ := events_run hr
    rw [hd, List.drop_left] at he
    exact hstamp e he

/-- Claim C3: every admission decision re-fetches gateway info
(`handleSessionLimit` stores the fresh response in `this.#gatewayInfo`),
sleeps `reset_after` milliseconds exactly when the fetched
`session_start_limit.remaining` is `0`, and advances the task to the grant
point; an identify grant (`shard.connect`) is only enabled at that point,
and the only step that brings a task there is its own `handleSessionLimit`. -/
theorem session_limit_before_identify :
    (∀ s t fetched s1, stepSessionLimit s t fetched = some s1 →
        s1.gatewayInfo = some fetched ∧
        (fetched.session_start_limit.remaining = 0 →
          s1.time = s.time + fetched.session_start_limit.reset_after) ∧
        (fetched.session_start_limit.remaining ≠ 0 → s1.time = s.time) ∧
        ∃ tk, alookup s.tasks t = some tk ∧ tk.pc = 2 ∧
          alookup s1.tasks t = some ⟨tk.shardId, 3, none⟩) ∧
    (∀ s t result s1, stepConnect s t result = some s1 →
        ∃ tk, alookup s.tasks t = some tk ∧ tk.pc = 3) ∧
    (∀ s l s1 t tk1, stepFn s l = some s1 →
        alookup s1.tasks t = some tk1 → tk1.pc = 3 →
        (∃ tk, alookup s.tasks t = some tk ∧ tk.pc = 3) ∨
          ∃ fetched, l = MLabel.sessionLimit t fetched) := by
  refine ⟨?_, ?_, ?_⟩
  · intro s t fetched s1 hs
    obtain ⟨tk, hlk, hpc, rfl⟩ := stepSessionLimit_some hs
    refine ⟨rfl, ?_, ?_, tk, hlk, hpc, ?_⟩
    · intro hrem
      simp [hrem]
    · intro hrem
      simp [hrem]
    · rw [alookup_aset, if_pos rfl]
  · intro s t result s1 hs
    obtain ⟨tk, hlk, hpc, rfl⟩ := stepConnect_some hs
    exact ⟨tk, hlk, hpc⟩
  · intro s l s1 t tk1 hs hlk1 h3
    exact pc3_from hs hlk1 h3

/-- Claim C4: a shard whose connect attempt returns
`GatewayStatus.InvalidSession` is re-enqueued by a fresh `queueShard` call
appended at the tail of the admission queue, behind all currently waiting
callers, carrying the same shard id at the start of the body; and a task
whose connect has completed never performs another identify attempt (no
further `connect` event of that task appears in any continuation of any
reachable run), so the retry does not happen in the same slot. -/
theorem invalid_session_requeued_tail :
    (∀ s t tk s1, alookup s.tasks t = some tk →
        tk.connectResult = some GatewayStatus.InvalidSession →
        stepInvalidCheck s t = some s1 →
        s1.queue = s.queue ++ [s.nextTask] ∧
        alookup s1.tasks s.nextTask = some ⟨tk.shardId, 0, none⟩) ∧
    (∀ labels1 s, run initState labels1 = some s →
      ∀ t tk, alookup s.tasks t = some tk → 4 ≤ tk.pc →
      ∀ labels2 s1, run s labels2 = some s1 →
        connectsBy t (s1.events.drop s.events.length) = 0) := by
  constructor
  · intro s t tk s1 hlk hres hs
    obtain ⟨tk2, hlk2, hpc2, hcase⟩ := stepInvalidCheck_some hs
    rw [hlk] at hlk2
    cases hlk2
    rcases hcase with ⟨_, rfl⟩ | ⟨hres2, _⟩
    · refine ⟨rfl, ?_⟩
      rw [alookup_aset, if_pos rfl]
    · exact absurd hres hres2
  · intro labels1 s hr1 t tk hlk h4 labels2 s1 hr2
    have hInv := Inv_run Inv_initState hr1
    obtain ⟨d, hd, hc⟩ := pc4_stable_run hInv hr2 hlk h4
    rw [hd, List.drop_left]
    exact hc

/-- Claim C5, counterexample: with `shards: [0]` and `totalShards: 0` the
option is *provided* (`isSome`), yet `spawn`'s shard-list computation
throws, because the code tests JavaScript truthiness
(`if (!this.options.totalShards)`) and `0` is falsy — refuting "it fails
unless total_shards is provided". -/
theorem total_shards_zero_counterexample :
    computeShardQueue
      { shards := ShardsOption.idList [ShardsItem.num 0], totalShards := some 0 } 1 =
      Except.error "totalShards must be supplied if you are defining shards with an array." ∧
    ({ shards := ShardsOption.idList [ShardsItem.num 0], totalShards := some 0 } :
      WSOptions).totalShards.isSome = true := by
  constructor
  · rfl
  · rfl

/-- Claim C5, amended: `spawn` computes the shard id list as specified —
`"auto"` sets `totalShards` to the gateway-recommended count and enumerates
`0..total-1`; an integer `N` sets `totalShards = N` and enumerates
`0..N-1`; a list fails unless `totalShards` is provided *and truthy
(non-zero)*, and otherwise uses the given ids verbatim after filtering out
non-numeric entries. -/
theorem spawn_shard_list_amended :
    (∀ options gw, options.shards = ShardsOption.auto →
        computeShardQueue options gw =
          Except.ok ((List.range gw).map Int.ofNat,
            { options with totalShards := some (Int.ofNat gw) })) ∧
    (∀ options gw n, options.shards = ShardsOption.count n →
        computeShardQueue options gw =
          Except.ok ((List.range n.toNat).map Int.ofNat,
            { options with totalShards := some n })) ∧
    (∀ options gw items, options.shards = ShardsOption.idList items →
        totalShardsTruthy options.totalShards = false →
        computeShardQueue options gw =
          Except.error
            "totalShards must be supplied if you are defining shards with an array.") ∧
    (∀ options gw items, options.shards = ShardsOption.idList items →
        totalShardsTruthy options.totalShards = true →
        computeShardQueue options gw =
          Except.ok (items.filterMap numericItem, options)) := by
  refine ⟨?_, ?_, ?_, ?_⟩
  · intro options gw h
    simp [computeShardQueue, h]
  · intro options gw n h
    simp [computeShardQueue, h]
  · intro options gw items h htruthy
    simp [computeShardQueue, h, htruthy]
  · intro options gw items h htruthy
    simp [computeShardQueue, h, htruthy]

/-- Claim C6: the token may come from the `token` setter or from the
environment variable `DISCORD_TOKEN` read at construction (an unset or
empty — falsy — variable leaves it `null`); when no token is set, `spawn`
throws the fatal startup error before the gateway-info fetch and before any
`queueShard` call, leaving the manager unchanged (the effect list is
empty). -/
theorem missing_token_fails_spawn :
    (∀ options, (webSocketManagerInit none options).token = none) ∧
    (∀ options, (webSocketManagerInit (some "") options).token = none) ∧
    (∀ options s, s ≠ "" → (webSocketManagerInit (some s) options).token = some s) ∧
    (∀ m tok, (setToken m tok).token = some tok) ∧
    (∀ m fetched, m.token = none →
        spawn m fetched =
          (Except.error "A token is required for connecting to the gateway.", [])) := by
  refine ⟨?_, ?_, ?_, ?_, ?_⟩
  · intro options; rfl
  · intro options; rfl
  · intro options s h
    simp [webSocketManagerInit, h]
  · intro m tok; rfl
  · intro m fetched h
    simp [spawn, h]

/-- Claim C7: the worker's control-channel handler maps an `Identify`
message to `connection.newSession()`, a `Destroy` message to a teardown
discarding the session (`resetSession: true`), a `Reconnect` message to a
teardown preserving the session (the argument-less `destroy()` default),
and a `PayloadDispatch` message to enqueueing its payload for send. -/
theorem worker_message_actions (π : Type) (d : π) :
    handleMasterMessage (MasterWorkerMessage.identify : MasterWorkerMessage π) =
        some ConnAction.newSession ∧
    handleMasterMessage (MasterWorkerMessage.destroy : MasterWorkerMessage π) =
        some (ConnAction.destroyConn true) ∧
    handleMasterMessage (MasterWorkerMessage.reconnect : MasterWorkerMessage π) =
        some (ConnAction.destroyConn false) ∧
    handleMasterMessage (MasterWorkerMessage.payloadDispatch d) =
        some (ConnAction.queueWSPayload d) :=
  ⟨rfl, rfl, rfl, rfl⟩

/-- Folding JavaScript `+` over finite ping values starting from `0`
computes the exact rational sum. -/
theorem foldl_add_num (l : List ℚ) (a : ℚ) :
    (l.map JsNum.num).foldl JsNum.add (JsNum.num a) = JsNum.num (a + l.sum) := by
  induction l generalizing a with
  | nil => simp
  | cons x xs ih =>
      simp only [List.map_cons, List.foldl_cons, JsNum.add, List.sum_cons]
      rw [ih, add_assoc]

/-- Claim C8: for a non-empty shard set with finite ping samples, the
`ping` getter returns the arithmetic mean — the sum of the shards' pings
divided by the number of shards. -/
theorem ping_arithmetic_mean (l : List ℚ) (h : l ≠ []) :
    managerPing (l.map JsNum.num) = JsNum.num (l.sum / (l.length : ℚ)) := by
  have hlen : ((l.length : ℚ)) ≠ 0 := by
    have := List.length_pos.mpr h
    exact_mod_cast Nat.pos_iff_ne_zero.mp this
  unfold managerPing
  rw [foldl_add_num, List.length_map]
  simp only [zero_add]
  show JsNum.div (JsNum.num l.sum) (JsNum.num (l.length : ℚ)) = _
  simp [JsNum.div, hlen]

/-- Witness for C8 at the concrete fleet `[2 ms, 4 ms]`: the mean is 3 ms. -/
theorem ping_arithmetic_mean_witness :
    managerPing ([(2 : ℚ), 4].map JsNum.num) =
      JsNum.num (([(2 : ℚ), 4]).sum / (([(2 : ℚ), 4]).length : ℚ)) :=
  ping_arithmetic_mean [2, 4] (by decide)

/-- Claim C9: on an empty shard set, the `ping` getter divides 0 by 0
unguardedly and returns `NaN`, not `0` and not an error. -/
theorem ping_empty_fleet_nan :
    managerPing [] = JsNum.nan ∧ JsNum.nan ≠ JsNum.num 0 := by
  constructor
  · rfl
  · intro h
    cases h

/-- Claim C10: when a queued shard is already `Connected` as its turn
arrives, the body returns early: no gateway-info fetch, no `connect`, no
sleep (the cached info, the clock and the event log are all unchanged); the
only effects are that the shard entry is re-inserted into the shard map and
the queue slot is acquired and then released by the `finally` block. -/
theorem connected_shard_early_return (s : MState) (t : TaskId) (id : Nat)
    (hlk : alookup s.tasks t = some ⟨id, 0, none⟩)
    (hhead : s.queue.head? = some t)
    (hsh : alookup s.shards id = some WebSocketShardStatus.Connected) :
    run s [MLabel.wait t, MLabel.getShard t, MLabel.shift t] =
      some { s with
        queue := s.queue.tail,
        tasks := aset s.tasks t ⟨id, 7, none⟩,
        shards := aset s.shards id WebSocketShardStatus.Connected } := by
  have hA : stepFn s (MLabel.wait t) =
      some { s with tasks := aset s.tasks t ⟨id, 1, none⟩ } := by
    simp [stepFn, stepWait, hlk, hhead]
  have hB : stepFn { s with tasks := aset s.tasks t ⟨id, 1, none⟩ }
      (MLabel.getShard t) =
      some { s with
        shards := aset s.shards id WebSocketShardStatus.Connected,
        tasks := aset s.tasks t ⟨id, 6, none⟩ } := by
    simp [stepFn, stepGetShard, alookup_aset, hsh, aset_aset]
  have hC : stepFn { s with
        shards := aset s.shards id WebSocketShardStatus.Connected,
        tasks := aset s.tasks t ⟨id, 6, none⟩ }
      (MLabel.shift t) =
      some { s with
        queue := s.queue.tail,
        tasks := aset s.tasks t ⟨id, 7, none⟩,
        shards := aset s.shards id WebSocketShardStatus.Connected } := by
    simp [stepFn, stepShift, alookup_aset, aset_aset]
  simp only [run, hA, hB, hC]

/-- Witness for C10: a concrete two-task state with shard 3 `Connected`;
running the three segments yields exactly the predicted state. -/
theorem connected_shard_early_return_witness :
    run earlyReturnState [MLabel.wait 0, MLabel.getShard 0, MLabel.shift 0] =
      some { earlyReturnState with
        queue := earlyReturnState.queue.tail,
        tasks := aset earlyReturnState.tasks 0 ⟨3, 7, none⟩,
        shards := aset earlyReturnState.shards 3 WebSocketShardStatus.Connected } :=
  connected_shard_early_return earlyReturnState 0 3 rfl rfl rfl

end KlasaWS
